import Mathlib

/-!
Shallow embedding of `miku-server-timing` (`src/src/lib.rs`), a tower
middleware that adds a `Server-Timing` header to HTTP responses.

Header text is modelled as `List Char`.  The header collection (the external
`http` crate) is modelled by an association list together with the
documented per-byte validity predicates of `HeaderValue::from_str` and
`HeaderValue::to_str`.  The string-building combinators of the external
`macro_toolset` crate (`str_concat!`, `with_prefix`, `with_suffix`,
`NumStr::new_default(..).set_resize_len::<1>()`) are modelled from the spec
(sections 4.2 and 4.3), since that crate's sources are not part of this
repository.  A panic of the Rust code (`.unwrap()`) is modelled by `none`.
-/

deriving instance DecidableEq for Except

namespace MikuServerTiming

/-- Header text: a list of characters (bytes of a header value). -/
abbrev Str := List Char

/-- Model of `std::task::Poll`. -/
inductive Poll (α : Type) where
  | pending : Poll α
  | ready : α → Poll α
deriving DecidableEq

/-- Model of `http::Response`: status, headers (association list from header
name to header value, single-valued as in the spec's `HeaderState`), body. -/
structure Response (B : Type) where
  status : Nat
  headers : List (Str × Str)
  body : B
deriving DecidableEq

/-- The fixed header name, `HeaderName::from_static("server-timing")`
(src/src/lib.rs line 105). -/
def SERVER_TIMING : Str := "server-timing".data

/-- Modelled from the spec: the external header collection's per-byte
legality check for a header value (`HeaderValue::from_str`): a byte is legal
iff it is `>= 32` and `!= 127`, or is horizontal tab (9). -/
def isValidHeaderChar (c : Char) : Bool :=
  (decide (32 ≤ c.toNat) && decide (c.toNat ≠ 127)) || decide (c.toNat = 9)

/-- Modelled from the spec: the external header collection's "read-as-text"
precondition (`HeaderValue::to_str` succeeds only on visible ASCII or tab). -/
def isVisibleAsciiChar (c : Char) : Bool :=
  (decide (32 ≤ c.toNat) && decide (c.toNat < 127)) || decide (c.toNat = 9)

/-- A whole header value is legal iff every character is. -/
def isLegalHeaderValue (s : Str) : Bool := s.all isValidHeaderChar

/-- Modelled from the spec: `HeaderValue::from_str` — returns the value when
the text is legal, fails otherwise. -/
def headerValueFromStr (s : Str) : Option Str :=
  if isLegalHeaderValue s then some s else none

/-- Decimal digits of `n`, most significant first; `fuel` bounds recursion
structurally (callers pass `n + 1`, enough since `n / 10 < n`). -/
def natDigitsAux : Nat → Nat → Str
  | 0, _ => []
  | fuel + 1, n =>
    if n < 10 then [Nat.digitChar n]
    else natDigitsAux fuel (n / 10) ++ [Nat.digitChar (n % 10)]

/-- Decimal digits of `n`, most significant first. -/
def natDigits (n : Nat) : Str := natDigitsAux (n + 1) n

/-- Modelled from the spec (section 4.2): the numeric formatter
`NumStr::new_default(..).set_resize_len::<1>()` of the external
`macro_toolset` crate.  The elapsed time is taken in tenths of a
millisecond; the output is the milliseconds value as decimal text with one
fractional digit. -/
def formatMillis (tenths : Nat) : Str :=
  natDigits (tenths / 10) ++ '.' :: [Nat.digitChar (tenths % 10)]

/-- Numeric value denoted by a list of decimal digit characters. -/
def digitsVal (s : Str) : Nat :=
  s.foldl (fun a c => 10 * a + (c.toNat - 48)) 0

/-- Modelled from the spec: `macro_toolset`'s `with_prefix`/`with_suffix` on
an optional value — `none` contributes nothing (neither prefix nor suffix),
`some s` contributes `pre ++ s ++ suf`. -/
def optWithPreSuf (pre : Str) (inner : Option Str) (suf : Str) : Str :=
  match inner with
  | none => []
  | some s => pre ++ s ++ suf

/-- The `new_server_timing_content` tuple of src/src/lib.rs lines 121-128,
flattened by `str_concat!`:
`(app, ";", description.with_prefix("desc=\"").with_suffix("\";"), "dur=", num)`. -/
def newServerTimingContent (app : Str) (description : Option Str) (tenths : Nat) : Str :=
  app ++ (";".data) ++ optWithPreSuf ("desc=\"".data) description ("\";".data)
    ++ ("dur=".data) ++ formatMillis tenths

/-- The merged header text of src/src/lib.rs lines 130-145: for an occupied
entry the existing value (read as text, modelled from the spec as opaque
pass-through) is appended with prefix `", "`; for a vacant entry the new
content stands alone. -/
def mergedHeaderText (app : Str) (description : Option Str) (tenths : Nat)
    (existing : Option Str) : Str :=
  match existing with
  | some old => newServerTimingContent app description tenths ++ (", ".data) ++ old
  | none => newServerTimingContent app description tenths

/-- Model of writing a header value: replace the value of `name` in place if
present, otherwise append the pair (covers `OccupiedEntry::insert` and
`VacantEntry::insert` of the external header collection). -/
def setHeader (headers : List (Str × Str)) (name v : Str) : List (Str × Str) :=
  match headers with
  | [] => [(name, v)]
  | (n, w) :: rest =>
    if n = name then (name, v) :: rest else (n, w) :: setHeader rest name v

/-- Model of `ResponseFuture::poll` (src/src/lib.rs lines 114-156).
`innerPoll` is the result of polling the inner future (`ready!(..)?`
forwards `pending` and propagates errors); `tryEntryFails` models
`headers_mut().try_entry(SERVER_TIMING)` returning `Err` (capacity
exhausted), whose branch swallows the failure; otherwise the merged text is
built and installed through `HeaderValue::from_str(..).unwrap()`, whose
panic on illegal text is modelled by `none`. -/
def ResponseFuture.poll {B E : Type} (app : Str) (description : Option Str)
    (tenths : Nat) (innerPoll : Poll (Except E (Response B)))
    (tryEntryFails : Bool) : Option (Poll (Except E (Response B))) :=
  match innerPoll with
  | .pending => some .pending
  | .ready (.error e) => some (.ready (.error e))
  | .ready (.ok response) =>
    if tryEntryFails then
      some (.ready (.ok response))
    else
      match headerValueFromStr
          (mergedHeaderText app description tenths
            (response.headers.lookup SERVER_TIMING)) with
      | some v =>
        some (.ready (.ok
          { response with headers := setHeader response.headers SERVER_TIMING v }))
      | none => none

/-- Model of `ServerTimingService::poll_ready` (src/src/lib.rs lines 80-82):
the inner service's readiness result is returned as is. -/
def ServerTimingService.pollReady {E : Type} (inner : Poll (Except E Unit)) :
    Poll (Except E Unit) :=
  inner

/-- The state the `ResponseFuture` carries about time: the captured
`request_time` instant, as a point on a threaded monotonic clock. -/
structure ResponseFutureState where
  requestTime : Nat
deriving DecidableEq

/-- Model of `ServerTimingService::call` (src/src/lib.rs lines 84-91) over a
threaded monotonic clock (`Nat` instants).  Struct fields evaluate in source
order: `self.service.call(req)` runs first (advancing the clock by
`innerCallCost`), then `Instant::now()` is read.  Returns the future state
and the clock at return time. -/
def ServerTimingService.call (now : Nat) (innerCallCost : Nat) :
    ResponseFutureState × Nat :=
  let afterInnerCall := now + innerCallCost
  ({ requestTime := afterInnerCall }, afterInnerCall)

/-- Model of `Instant::elapsed` at clock instant `now` (saturating, as
`Instant::elapsed` never goes negative). -/
def ResponseFutureState.elapsed (fs : ResponseFutureState) (now : Nat) : Nat :=
  now - fs.requestTime

theorem digitChar_toNat (k : Nat) (h : k < 10) : (Nat.digitChar k).toNat = 48 + k := by
  interval_cases k <;> rfl

theorem natDigitsAux_digit_range (fuel : Nat) : ∀ n, n < fuel →
    ∀ c ∈ natDigitsAux fuel n, 48 ≤ c.toNat ∧ c.toNat ≤ 57 := by
  induction fuel with
  | zero => intro n h; omega
  | succ fuel ih =>
    intro n hn c hc
    by_cases h10 : n < 10
    · simp only [natDigitsAux, if_pos h10, List.mem_singleton] at hc
      subst hc
      rw [digitChar_toNat n h10]; omega
    · simp only [natDigitsAux, if_neg h10, List.mem_append, List.mem_singleton] at hc
      rcases hc with h1 | h2
      · have hdiv : n / 10 < fuel := by
          have h1' : n / 10 < n := Nat.div_lt_self (by omega) (by norm_num)
          omega
        exact ih (n / 10) hdiv c h1
      · subst h2
        rw [digitChar_toNat (n % 10) (Nat.mod_lt n (by norm_num))]; omega

theorem natDigitsAux_foldl (fuel : Nat) : ∀ n a, n < fuel →
    List.foldl (fun x c => 10 * x + (c.toNat - 48)) a (natDigitsAux fuel n)
      = a * 10 ^ (natDigitsAux fuel n).length + n := by
  induction fuel with
  | zero => intro n a h; omega
  | succ fuel ih =>
    intro n a hn
    by_cases h10 : n < 10
    · simp only [natDigitsAux, if_pos h10, List.foldl_cons, List.foldl_nil,
        List.length_singleton, pow_one]
      rw [digitChar_toNat n h10]
      omega
    · have hdiv : n / 10 < fuel := by
        have h1' : n / 10 < n := Nat.div_lt_self (by omega) (by norm_num)
        omega
      simp only [natDigitsAux, if_neg h10, List.foldl_append, List.foldl_cons,
        List.foldl_nil, List.length_append, List.length_singleton]
      rw [ih (n / 10) a hdiv]
      rw [digitChar_toNat (n % 10) (Nat.mod_lt n (by norm_num))]
      have hmod := Nat.div_add_mod n 10
      have hq : 48 + n % 10 - 48 = n % 10 := by omega
      rw [hq, pow_succ]
      have hr : 10 * (a * 10 ^ (natDigitsAux fuel (n / 10)).length + n / 10) + n % 10
          = a * (10 ^ (natDigitsAux fuel (n / 10)).length * 10) + (10 * (n / 10) + n % 10) := by
        ring
      rw [hr, hmod]

theorem digitsVal_natDigits (n : Nat) : digitsVal (natDigits n) = n := by
  have h := natDigitsAux_foldl (n + 1) n 0 (by omega)
  simpa [digitsVal, natDigits] using h

theorem natDigits_all_valid (n : Nat) : (natDigits n).all isValidHeaderChar = true := by
  rw [List.all_eq_true]
  intro c hc
  simp only [natDigits] at hc
  have h := natDigitsAux_digit_range (n + 1) n (by omega) c hc
  simp only [isValidHeaderChar, Bool.or_eq_true, Bool.and_eq_true, decide_eq_true_eq]
  omega

theorem formatMillis_all_valid (t : Nat) : (formatMillis t).all isValidHeaderChar = true := by
  rw [List.all_eq_true]
  intro c hc
  simp only [formatMillis, List.mem_append, List.mem_cons, List.mem_singleton,
    List.not_mem_nil, or_false] at hc
  rcases hc with h | h | h
  · exact List.all_eq_true.1 (natDigits_all_valid (t / 10)) c h
  · subst h; decide
  · subst h
    have h2 : t % 10 < 10 := Nat.mod_lt t (by norm_num)
    have h3 := digitChar_toNat (t % 10) h2
    simp only [isValidHeaderChar, Bool.or_eq_true, Bool.and_eq_true, decide_eq_true_eq]
    omega

theorem append_all_valid {s t : Str} (hs : s.all isValidHeaderChar = true)
    (ht : t.all isValidHeaderChar = true) : (s ++ t).all isValidHeaderChar = true := by
  simp [List.all_append, hs, ht]

theorem newServerTimingContent_all_valid (app : Str) (description : Option Str) (tenths : Nat)
    (happ : app.all isValidHeaderChar = true)
    (hdesc : ∀ d, description = some d → d.all isValidHeaderChar = true) :
    (newServerTimingContent app description tenths).all isValidHeaderChar = true := by
  unfold newServerTimingContent
  apply append_all_valid
  apply append_all_valid
  apply append_all_valid
  · exact append_all_valid happ (by decide)
  · cases description with
    | none => decide
    | some d =>
      simp only [optWithPreSuf]
      exact append_all_valid (append_all_valid (by decide) (hdesc d rfl)) (by decide)
  · decide
  · exact formatMillis_all_valid tenths

theorem visibleAscii_all_valid {s : Str} (h : s.all isVisibleAsciiChar = true) :
    s.all isValidHeaderChar = true := by
  rw [List.all_eq_true] at h ⊢
  intro c hc
  have h2 := h c hc
  simp only [isVisibleAsciiChar, Bool.or_eq_true, Bool.and_eq_true, decide_eq_true_eq] at h2
  simp only [isValidHeaderChar, Bool.or_eq_true, Bool.and_eq_true, decide_eq_true_eq]
  omega

theorem mergedHeaderText_legal (app : Str) (description : Option Str) (tenths : Nat)
    (existing : Option Str)
    (happ : app.all isValidHeaderChar = true)
    (hdesc : ∀ d, description = some d → d.all isValidHeaderChar = true)
    (hold : ∀ old, existing = some old → old.all isValidHeaderChar = true) :
    isLegalHeaderValue (mergedHeaderText app description tenths existing) = true := by
  cases existing with
  | none =>
    exact newServerTimingContent_all_valid app description tenths happ hdesc
  | some old =>
    unfold mergedHeaderText isLegalHeaderValue
    exact append_all_valid
      (append_all_valid (newServerTimingContent_all_valid app description tenths happ hdesc)
        (by decide))
      (hold old rfl)

theorem lookup_setHeader_self (headers : List (Str × Str)) (name v : Str) :
    (setHeader headers name v).lookup name = some v := by
  induction headers with
  | nil => simp [setHeader, List.lookup]
  | cons p rest ih =>
    obtain ⟨n, w⟩ := p
    by_cases h : n = name
    · subst h; simp [setHeader, List.lookup]
    · have hb : (name == n) = false := beq_eq_false_iff_ne.2 (fun hh => h hh.symm)
      simp only [setHeader]
      rw [if_neg h]
      simp only [List.lookup, hb]
      exact ih

theorem lookup_setHeader_ne (headers : List (Str × Str)) (name other v : Str)
    (h : other ≠ name) :
    (setHeader headers name v).lookup other = headers.lookup other := by
  induction headers with
  | nil =>
    have hb : (other == name) = false := beq_eq_false_iff_ne.2 h
    simp [setHeader, List.lookup, hb]
  | cons p rest ih =>
    obtain ⟨n, w⟩ := p
    by_cases hn : n = name
    · subst hn
      have hb : (other == n) = false := beq_eq_false_iff_ne.2 h
      simp [setHeader, List.lookup, hb]
    · simp only [setHeader]
      rw [if_neg hn]
      simp only [List.lookup, ih]

theorem newServerTimingContent_none (app : Str) (tenths : Nat) :
    newServerTimingContent app none tenths = app ++ (";dur=".data) ++ formatMillis tenths := by
  simp [newServerTimingContent, optWithPreSuf, List.append_assoc]

theorem newServerTimingContent_some (app d : Str) (tenths : Nat) :
    newServerTimingContent app (some d) tenths
      = app ++ (";desc=\"".data) ++ d ++ ("\";dur=".data) ++ formatMillis tenths := by
  simp [newServerTimingContent, optWithPreSuf, List.append_assoc]

/-- C1: for every response produced by the wrapped handler, with a
grammar-safe descriptor: if the `server-timing` header is absent, the header
written is the newly formatted entry verbatim; if it is present with value
`old` (including empty `old`), the header written equals the new entry
followed by `", "` followed by `old` exactly, unmodified. -/
theorem merge_exact {B E : Type} (app : Str) (description : Option Str) (tenths : Nat)
    (resp : Response B)
    (happ : app.all isValidHeaderChar = true)
    (hdesc : ∀ d, description = some d → d.all isValidHeaderChar = true) :
    (resp.headers.lookup SERVER_TIMING = none →
      ResponseFuture.poll (E := E) app description tenths (.ready (.ok resp)) false
        = some (.ready (.ok { resp with
            headers := setHeader resp.headers SERVER_TIMING
              (newServerTimingContent app description tenths) })))
    ∧ (∀ old, resp.headers.lookup SERVER_TIMING = some old →
        old.all isValidHeaderChar = true →
        ResponseFuture.poll (E := E) app description tenths (.ready (.ok resp)) false
          = some (.ready (.ok { resp with
              headers := setHeader resp.headers SERVER_TIMING
                (newServerTimingContent app description tenths ++ (", ".data) ++ old) }))) := by
  constructor
  · intro habs
    have hleg : isLegalHeaderValue (newServerTimingContent app description tenths) = true :=
      mergedHeaderText_legal app description tenths none happ hdesc (fun _ h => by cases h)
    simp [ResponseFuture.poll, habs, mergedHeaderText, headerValueFromStr, hleg]
  · intro old hocc hold
    have hleg : isLegalHeaderValue (mergedHeaderText app description tenths (some old)) = true :=
      mergedHeaderText_legal app description tenths (some old) happ hdesc
        (fun o h => by injection h with h2; rw [← h2]; exact hold)
    simp [mergedHeaderText, List.append_assoc] at hleg
    simp [ResponseFuture.poll, hocc, headerValueFromStr, hleg, mergedHeaderText]

/-- C1 witness at a concrete input with an existing header. -/
theorem merge_exact_witness :
    ResponseFuture.poll (E := Unit) ("svc1".data) none 0
      (.ready (.ok (⟨200, [(SERVER_TIMING, "inner;dur=23".data)], ()⟩ : Response Unit))) false
      = some (.ready (.ok ⟨200, [(SERVER_TIMING, "svc1;dur=0.0, inner;dur=23".data)], ()⟩)) := by
  have h := (merge_exact (E := Unit) ("svc1".data) none 0
      ⟨200, [(SERVER_TIMING, "inner;dur=23".data)], ()⟩ (by decide)
      (fun d hd => by cases hd)).2 ("inner;dur=23".data) (by decide) (by decide)
  rw [h]
  decide

/-- C2 counterexample: with a descriptor name holding a character illegal in
a header value (a line feed), the produced text is not a legal header value
and `poll` panics (modelled `none`) instead of returning the response. -/
theorem headerWriteFailure_panics :
    ResponseFuture.poll (E := Unit) (['a', Char.ofNat 10]) none 0
      (.ready (.ok (⟨200, [], ()⟩ : Response Unit))) false = none := by decide

/-- C2 amended: a header-write failure is never converted into a request
error, and when the header collection refuses the insertion (`try_entry`
fails) the response is returned successfully with the metric header
unchanged; however, when the produced text is not a legal header value the
code panics on `unwrap` instead of swallowing the failure. -/
theorem headerWriteFailure_amended {B E : Type} (app : Str) (description : Option Str)
    (tenths : Nat) (resp : Response B) (tryEntryFails : Bool)
    (out : Poll (Except E (Response B)))
    (h : ResponseFuture.poll app description tenths (.ready (.ok resp)) tryEntryFails
      = some out) :
    (∃ r, out = .ready (.ok r)) ∧ (tryEntryFails = true → out = .ready (.ok resp)) := by
  cases tryEntryFails with
  | true =>
    have h2 : Poll.ready (Except.ok resp) = out := by
      simpa [ResponseFuture.poll] using h
    exact ⟨⟨resp, h2.symm⟩, fun _ => h2.symm⟩
  | false =>
    refine ⟨?_, fun hc => absurd hc (by decide)⟩
    simp only [ResponseFuture.poll, Bool.false_eq_true, if_false] at h
    cases hv : headerValueFromStr
        (mergedHeaderText app description tenths (resp.headers.lookup SERVER_TIMING)) with
    | none => rw [hv] at h; cases h
    | some v =>
      rw [hv] at h
      simp only [Option.some_inj] at h
      exact ⟨_, h.symm⟩

/-- C2 amended witness: capacity failure at a concrete input. -/
theorem headerWriteFailure_amended_witness :
    (∃ r, (Poll.ready (Except.ok (⟨404, [], ()⟩ : Response Unit)) : Poll (Except Unit (Response Unit)))
        = Poll.ready (Except.ok r))
    ∧ (true = true →
        (Poll.ready (Except.ok (⟨404, [], ()⟩ : Response Unit)) : Poll (Except Unit (Response Unit)))
          = Poll.ready (Except.ok ⟨404, [], ()⟩)) :=
  headerWriteFailure_amended ("svc1".data) none 0 ⟨404, [], ()⟩ true
    (Poll.ready (Except.ok ⟨404, [], ()⟩)) (by decide)

/-- C3: with an absent prior header and a grammar-safe descriptor, the
written header value equals `name;dur=<formatted(t)>` for descriptor
`(name, none)`, and `name;desc="desc";dur=<formatted(t)>` for descriptor
`(name, some desc)`. -/
theorem formattedEntry_written {B E : Type} (app d : Str) (tenths : Nat) (resp : Response B)
    (habsent : resp.headers.lookup SERVER_TIMING = none)
    (happ : app.all isValidHeaderChar = true)
    (hd : d.all isValidHeaderChar = true) :
    (ResponseFuture.poll (E := E) app none tenths (.ready (.ok resp)) false
      = some (.ready (.ok { resp with
          headers := setHeader resp.headers SERVER_TIMING
            (app ++ (";dur=".data) ++ formatMillis tenths) })))
    ∧ (ResponseFuture.poll (E := E) app (some d) tenths (.ready (.ok resp)) false
      = some (.ready (.ok { resp with
          headers := setHeader resp.headers SERVER_TIMING
            (app ++ (";desc=\"".data) ++ d ++ ("\";dur=".data) ++ formatMillis tenths) }))) := by
  constructor
  · have hleg : isLegalHeaderValue (newServerTimingContent app none tenths) = true :=
      mergedHeaderText_legal app none tenths none happ (fun _ h => by cases h)
        (fun _ h => by cases h)
    rw [← newServerTimingContent_none]
    simp [ResponseFuture.poll, habsent, mergedHeaderText, headerValueFromStr, hleg]
  · have hleg : isLegalHeaderValue (newServerTimingContent app (some d) tenths) = true :=
      mergedHeaderText_legal app (some d) tenths none happ
        (fun o h => by injection h with h2; rw [← h2]; exact hd)
        (fun _ h => by cases h)
    rw [← newServerTimingContent_some]
    simp [ResponseFuture.poll, habsent, mergedHeaderText, headerValueFromStr, hleg]

/-- C3 witness at a concrete descriptor with a description. -/
theorem formattedEntry_written_witness :
    ResponseFuture.poll (E := Unit) ("svc1".data) (some ("desc1".data)) 1005
      (.ready (.ok (⟨200, [], ()⟩ : Response Unit))) false
      = some (.ready (.ok ⟨200,
          [(SERVER_TIMING, "svc1;desc=\"desc1\";dur=100.5".data)], ()⟩)) := by
  have h := (formattedEntry_written (E := Unit) ("svc1".data) ("desc1".data) 1005
      ⟨200, [], ()⟩ (by decide) (by decide) (by decide)).2
  rw [h]
  decide

/-- C4: whenever the inner future completes with an error, `poll` propagates
that exact error unchanged; no header manipulation happens and no timing
entry is attached (the error value is returned as is, with no response to
touch). -/
theorem error_passthrough {B E : Type} (app : Str) (description : Option Str)
    (tenths : Nat) (e : E) (tryEntryFails : Bool) :
    ResponseFuture.poll (B := B) app description tenths (.ready (.error e)) tryEntryFails
      = some (.ready (.error e)) := rfl

/-- C5: when the descriptor name and description consist only of characters
legal in a header value and the pre-existing `server-timing` value converts
to a valid string (visible ASCII), the `unwrap` on `HeaderValue::from_str`
never panics: `poll` never reaches the modelled panic (`none`). -/
theorem unwrap_no_panic {B E : Type} (app : Str) (description : Option Str) (tenths : Nat)
    (resp : Response B) (tryEntryFails : Bool)
    (happ : app.all isValidHeaderChar = true)
    (hdesc : ∀ d, description = some d → d.all isValidHeaderChar = true)
    (hold : ∀ old, resp.headers.lookup SERVER_TIMING = some old →
      old.all isVisibleAsciiChar = true) :
    ResponseFuture.poll (E := E) app description tenths (.ready (.ok resp)) tryEntryFails
      ≠ none := by
  cases tryEntryFails with
  | true => simp [ResponseFuture.poll]
  | false =>
    have hleg := mergedHeaderText_legal app description tenths
      (resp.headers.lookup SERVER_TIMING) happ hdesc
      (fun old h => visibleAscii_all_valid (hold old h))
    simp [ResponseFuture.poll, headerValueFromStr, hleg]

/-- C5 witness at a concrete input with an existing header. -/
theorem unwrap_no_panic_witness :
    ResponseFuture.poll (E := Unit) ("svc1".data) (some ("desc1".data)) 42
      (.ready (.ok (⟨200, [(SERVER_TIMING, "inner;dur=23".data)], ()⟩ : Response Unit))) false
      ≠ none := by
  apply unwrap_no_panic
  · decide
  · intro d hd
    injection hd with h2
    rw [← h2]
    decide
  · intro old hold2
    have h3 : (some ("inner;dur=23".data) : Option Str) = some old := by
      rw [← hold2]
      decide
    injection h3 with h4
    rw [← h4]
    decide

/-- C6: the formatter is deterministic — two invocations on the same
elapsed value produce identical text (the model is a pure function of the
elapsed value alone: no platform or locale input exists). -/
theorem formatter_deterministic (t1 t2 : Nat) (h : t1 = t2) :
    formatMillis t1 = formatMillis t2 := by
  rw [h]

/-- C6 witness. -/
theorem formatter_deterministic_witness : formatMillis 1234 = formatMillis 1234 :=
  formatter_deterministic 1234 1234 rfl

/-- C7: for every elapsed value the formatter's output is decimal text —
the full decimal digits of the integer part (`digitsVal` recovers it
exactly, so larger magnitudes are not truncated), a decimal point, and at
least one fractional digit. -/
theorem formatter_decimal (tenths : Nat) :
    formatMillis tenths
      = natDigits (tenths / 10) ++ '.' :: [Nat.digitChar (tenths % 10)]
    ∧ digitsVal (natDigits (tenths / 10)) = tenths / 10
    ∧ digitsVal [Nat.digitChar (tenths % 10)] = tenths % 10
    ∧ ([Nat.digitChar (tenths % 10)] : Str).length = 1 := by
  refine ⟨rfl, digitsVal_natDigits _, ?_, rfl⟩
  have h2 : tenths % 10 < 10 := Nat.mod_lt tenths (by norm_num)
  simp only [digitsVal, List.foldl_cons, List.foldl_nil, digitChar_toNat (tenths % 10) h2]
  omega

/-- C8: for every successful inner response, `poll` leaves the status, the
body and every header other than `server-timing` exactly as produced, in
every outcome in which a response is returned (including the swallowed
`try_entry` failure). -/
theorem frame_preserved {B E : Type} (app : Str) (description : Option Str) (tenths : Nat)
    (resp : Response B) (tryEntryFails : Bool) (out : Poll (Except E (Response B)))
    (h : ResponseFuture.poll app description tenths (.ready (.ok resp)) tryEntryFails
      = some out) :
    ∃ r, out = .ready (.ok r) ∧ r.status = resp.status ∧ r.body = resp.body
      ∧ ∀ other, other ≠ SERVER_TIMING →
          r.headers.lookup other = resp.headers.lookup other := by
  cases tryEntryFails with
  | true =>
    have h2 : Poll.ready (Except.ok resp) = out := by
      simpa [ResponseFuture.poll] using h
    exact ⟨resp, h2.symm, rfl, rfl, fun _ _ => rfl⟩
  | false =>
    simp only [ResponseFuture.poll, Bool.false_eq_true, if_false] at h
    cases hv : headerValueFromStr
        (mergedHeaderText app description tenths (resp.headers.lookup SERVER_TIMING)) with
    | none => rw [hv] at h; cases h
    | some v =>
      rw [hv] at h
      simp only [Option.some_inj] at h
      refine ⟨_, h.symm, rfl, rfl, ?_⟩
      intro other hother
      exact lookup_setHeader_ne resp.headers SERVER_TIMING other v hother

/-- C8 witness at a concrete response carrying an unrelated header. -/
theorem frame_preserved_witness :
    ∃ r, (Poll.ready (Except.ok (⟨200,
          [("a".data, "1".data), (SERVER_TIMING, "svc1;dur=0.0".data)], ()⟩ : Response Unit))
        : Poll (Except Unit (Response Unit)))
        = Poll.ready (Except.ok r)
      ∧ r.status = 200 ∧ r.body = ()
      ∧ ∀ other, other ≠ SERVER_TIMING →
          r.headers.lookup other = List.lookup other [("a".data, "1".data)] :=
  frame_preserved ("svc1".data) none 0 ⟨200, [("a".data, "1".data)], ()⟩ false
    (Poll.ready (Except.ok ⟨200, [("a".data, "1".data), (SERVER_TIMING, "svc1;dur=0.0".data)], ()⟩))
    (by decide)

/-- C9: the readiness query returns exactly the inner service's readiness
result, unchanged, for every readiness state the inner service reports. -/
theorem pollReady_forward {E : Type} (r : Poll (Except E Unit)) :
    ServerTimingService.pollReady r = r := rfl

/-- C10: the start instant is captured inside `call` after the inner
service's `call` has constructed its future (struct fields evaluate in
source order) and not later than any poll of that future; the measured
elapsed time spans from that capture to completion, so it includes the
delay before the first poll. -/
theorem startInstant_window (now cost tPoll tEnd : Nat)
    (h1 : (ServerTimingService.call now cost).2 ≤ tPoll) (h2 : tPoll ≤ tEnd) :
    (ServerTimingService.call now cost).1.requestTime = now + cost
    ∧ (ServerTimingService.call now cost).1.requestTime ≤ tPoll
    ∧ ResponseFutureState.elapsed (ServerTimingService.call now cost).1 tEnd
        = tEnd - (now + cost)
    ∧ tPoll - (ServerTimingService.call now cost).1.requestTime
        ≤ ResponseFutureState.elapsed (ServerTimingService.call now cost).1 tEnd := by
  have hreq : (ServerTimingService.call now cost).1.requestTime = now + cost := rfl
  have hsnd : (ServerTimingService.call now cost).2 = now + cost := rfl
  have hel : ResponseFutureState.elapsed (ServerTimingService.call now cost).1 tEnd
      = tEnd - (now + cost) := rfl
  rw [hsnd] at h1
  refine ⟨hreq, ?_, hel, ?_⟩
  · rw [hreq]; exact h1
  · rw [hreq, hel]; omega

/-- C10 witness. -/
theorem startInstant_window_witness :
    (ServerTimingService.call 5 3).1.requestTime = 5 + 3
    ∧ (ServerTimingService.call 5 3).1.requestTime ≤ 10
    ∧ ResponseFutureState.elapsed (ServerTimingService.call 5 3).1 20 = 20 - (5 + 3)
    ∧ 10 - (ServerTimingService.call 5 3).1.requestTime
        ≤ ResponseFutureState.elapsed (ServerTimingService.call 5 3).1 20 :=
  startInstant_window 5 3 10 20 (by decide) (by decide)

end MikuServerTiming
